import Mathlib

/-!
Verification development for the retools-engine automation pipeline
(`scripts/ai-driver.js`, `scripts/webhook-driver.js`).

The JavaScript sources are shallowly embedded as executable Lean
definitions.  Paths are modelled as lists of segments (the result of
splitting on `/`), the filesystem mutated by the change-set applier as a
pair of maps (files and directories), and the repository tree read by the
context extractor as a list of named entries.
-/

namespace Retools

/-! ## Path model

`path.join(workingDir, p)` concatenates the segments of `p` onto the
(already normalized, absolute) working-directory segments and normalizes
the result: `..` pops a segment, `.` and empty segments disappear.
`String.prototype.split('/')` is modelled by `splitPath`. -/

def splitSegsGo (cur : List Char) : List Char → List (List Char)
  | [] => [cur.reverse]
  | c :: rest =>
    if c = '/' then cur.reverse :: splitSegsGo [] rest
    else splitSegsGo (c :: cur) rest

def splitPath (p : String) : List String :=
  (splitSegsGo [] p.data).map (fun cs => ⟨cs⟩)

def normSegs (acc : List String) : List String → List String
  | [] => acc
  | s :: rest =>
    if s = ".." then normSegs acc.dropLast rest
    else if s = "." ∨ s = "" then normSegs acc rest
    else normSegs (acc ++ [s]) rest

def joinPath (root : List String) (p : String) : List String :=
  normSegs root (splitPath p)

/-! ## Change-set applier (`applyChanges`, ai-driver.js lines 501-525)

The filesystem is a map from absolute segment paths to file contents plus
a set of directories.  `fs.writeFileSync` overwrites, `fs.unlinkSync` is
guarded by `fs.existsSync`, and the `fs.mkdirSync(dir, {recursive:true})`
call (guarded by `existsSync(dir)`) nets out to making every strict
ancestor of the target path exist as a directory, which is how it is
modelled (mkdir -p on already-existing directories is a no-op). -/

structure FileOp where
  path : String
  action : String
  content : String

structure FSState where
  files : List String → Option String
  dirs : List String → Bool

def emptyFS : FSState := { files := fun _ => none, dirs := fun _ => false }

/-- `q` is a strict ancestor directory of the path `p`. -/
def strictAncestor (q p : List String) : Bool :=
  q.isPrefixOf p && decide (q.length < p.length)

def applyOp (root : List String) (fs : FSState) (m : FileOp) : FSState :=
  let p := joinPath root m.path
  if m.action = "delete" then
    if (fs.files p).isSome then
      { fs with files := fun q => if q = p then none else fs.files q }
    else fs
  else if m.action = "create" ∨ m.action = "modify" then
    { files := fun q => if q = p then some m.content else fs.files q,
      dirs := fun q => fs.dirs q || strictAncestor q p }
  else fs

def applyChanges (root : List String) (ms : List FileOp) (fs : FSState) : FSState :=
  ms.foldl (applyOp root) fs

/-! `applyOp`/`applyChanges` above are the error-free effect model: they
record what each operation does to the file map and directory set when it
succeeds.  The filesystem calls can also throw: `fs.existsSync` is true
for directories as well, and `fs.unlinkSync` on a directory raises EISDIR;
`fs.mkdirSync`/`fs.writeFileSync` raise (ENOTDIR/EEXIST/EISDIR) when a
path component is an existing file or the target itself is a directory.
`applyOpE`/`applyChangesE` model those error paths; an error aborts the
batch, and the state reached so far stays on disk. -/

/-- All strict ancestors of a path (every proper prefix). -/
def properPrefixes (p : List String) : List (List String) :=
  (List.range p.length).map (fun k => p.take k)

/-- fs.existsSync: true when the path is an existing file or directory. -/
def existsFS (fs : FSState) (q : List String) : Bool :=
  (fs.files q).isSome || fs.dirs q

/-- One operation with its error paths.  For create/modify the
existsSync-guarded `mkdirSync(dir, recursive)` plus `writeFileSync` pair
amounts to: fail when a path component is an existing file, fail when the
target itself is a directory, otherwise ensure every ancestor directory
and write the file. -/
def applyOpE (root : List String) (fs : FSState) (m : FileOp) : Except String FSState :=
  if m.action = "delete" then
    if existsFS fs (joinPath root m.path) then
      if (fs.files (joinPath root m.path)).isSome then
        .ok { fs with
          files := fun q => if q = joinPath root m.path then none else fs.files q }
      else .error "EISDIR: unlink of a directory"
    else .ok fs
  else if m.action = "create" ∨ m.action = "modify" then
    if (properPrefixes (joinPath root m.path)).any (fun q => (fs.files q).isSome) then
      .error "ENOTDIR: a path component is an existing file"
    else if fs.dirs (joinPath root m.path) then
      .error "EISDIR: write to a directory"
    else
      .ok { files := fun q =>
              if q = joinPath root m.path then some m.content else fs.files q,
            dirs := fun q =>
              fs.dirs q || (properPrefixes (joinPath root m.path)).contains q }
  else .ok fs

/-- The batch with abort-on-error: an error carries the state reached so
far, which is what remains on disk when the exception propagates. -/
def applyChangesE (root : List String) : List FileOp → FSState →
    Except (String × FSState) FSState
  | [], fs => .ok fs
  | m :: rest, fs =>
    match applyOpE root fs m with
    | .ok fs2 => applyChangesE root rest fs2
    | .error e => .error (e, fs)

/-- The on-disk state an application leaves behind, aborted or not. -/
def applyResultState : Except (String × FSState) FSState → FSState
  | .ok fs => fs
  | .error (_, fs) => fs

/-- A batch whose second application aborts: the first run deletes nothing
(no "a" yet) and ends with x = "2"; in the second run "a" exists as a
directory, so the delete throws EISDIR after x was already reset to "1". -/
def c6Batch : List FileOp :=
  [⟨"x", "create", "1"⟩, ⟨"a", "delete", ""⟩, ⟨"a/b", "create", "c"⟩,
   ⟨"x", "modify", "2"⟩]

/-- A batch that succeeds on every application. -/
def c6DemoBatch : List FileOp :=
  [⟨"a/b.txt", "create", "hi"⟩, ⟨"gone.txt", "delete", ""⟩]

/-! Pointwise characterization of a batch: the final content of a path is
decided by the last operation that touches it, independent of the initial
state, and directories only ever accumulate. -/

def opEffectF (root : List String) (m : FileOp) (q : List String) : Option (Option String) :=
  let p := joinPath root m.path
  if m.action = "delete" then (if q = p then some none else none)
  else if m.action = "create" ∨ m.action = "modify" then
    (if q = p then some (some m.content) else none)
  else none

def opEffectD (root : List String) (m : FileOp) (q : List String) : Bool :=
  (decide (m.action = "create") || decide (m.action = "modify"))
    && strictAncestor q (joinPath root m.path)

def chainF (root : List String) (ms : List FileOp) (q : List String) : Option (Option String) :=
  match ms with
  | [] => none
  | m :: rest =>
    match chainF root rest q with
    | some v => some v
    | none => opEffectF root m q

def chainD (root : List String) (ms : List FileOp) (q : List String) : Bool :=
  match ms with
  | [] => false
  | m :: rest => opEffectD root m q || chainD root rest q

/-! ## JSON values and JSON.parse

A fuel-indexed recursive-descent parser over character lists, modelling
JSON.parse: literal `null`/`true`/`false`, strings with escapes, numbers
with the JSON grammar (lexeme kept verbatim), arrays and objects, with
whitespace = space/tab/newline/carriage-return and no trailing input. -/

inductive JVal where
  | jnull
  | jbool (b : Bool)
  | jnum (lexeme : String)
  | jstr (s : String)
  | jarr (elems : List JVal)
  | jobj (fields : List (String × JVal))

def skipWs : List Char → List Char
  | [] => []
  | c :: rest =>
    if c = ' ' ∨ c = '\t' ∨ c = '\n' ∨ c = '\r' then skipWs rest else c :: rest

def takeDigits : List Char → (List Char × List Char)
  | [] => ([], [])
  | c :: rest =>
    if c.isDigit then
      let (ds, r) := takeDigits rest
      (c :: ds, r)
    else ([], c :: rest)

def numExpPart (lex : List Char) (cs : List Char) : Except String (JVal × List Char) :=
  let (sgn, cs1) :=
    match cs with
    | '+' :: r => (['+'], r)
    | '-' :: r => (['-'], r)
    | _ => (([] : List Char), cs)
  match takeDigits cs1 with
  | ([], _) => .error "bad number"
  | (ds, r) => .ok (.jnum ⟨lex ++ sgn ++ ds⟩, r)

def numAfterFrac (lex : List Char) (cs : List Char) : Except String (JVal × List Char) :=
  match cs with
  | 'e' :: r => numExpPart (lex ++ ['e']) r
  | 'E' :: r => numExpPart (lex ++ ['E']) r
  | _ => .ok (.jnum ⟨lex⟩, cs)

def numAfterInt (lex : List Char) (cs : List Char) : Except String (JVal × List Char) :=
  match cs with
  | '.' :: r =>
    (match takeDigits r with
     | ([], _) => .error "bad number"
     | (ds, r2) => numAfterFrac (lex ++ '.' :: ds) r2)
  | _ => numAfterFrac lex cs

def parseNum (cs : List Char) : Except String (JVal × List Char) :=
  let (sgn, cs1) :=
    match cs with
    | '-' :: r => (['-'], r)
    | _ => (([] : List Char), cs)
  match cs1 with
  | '0' :: r => numAfterInt (sgn ++ ['0']) r
  | c :: r =>
    if c.isDigit then
      let (ds, r2) := takeDigits r
      numAfterInt (sgn ++ c :: ds) r2
    else .error "bad number"
  | [] => .error "bad number"

def hexVal (c : Char) : Option Nat :=
  if '0' ≤ c ∧ c ≤ '9' then some (c.toNat - 48)
  else if 'a' ≤ c ∧ c ≤ 'f' then some (c.toNat - 87)
  else if 'A' ≤ c ∧ c ≤ 'F' then some (c.toNat - 55)
  else none

def parseStringBody : List Char → List Char → Except String (String × List Char)
  | [], _ => .error "unterminated string"
  | '"' :: rest, acc => .ok (⟨acc.reverse⟩, rest)
  | '\\' :: 'u' :: h1 :: h2 :: h3 :: h4 :: rest, acc =>
    (match hexVal h1, hexVal h2, hexVal h3, hexVal h4 with
     | some a, some b, some c, some d =>
       parseStringBody rest (Char.ofNat (((a * 16 + b) * 16 + c) * 16 + d) :: acc)
     | _, _, _, _ => .error "bad unicode escape")
  | '\\' :: e :: rest, acc =>
    if e = '"' then parseStringBody rest ('"' :: acc)
    else if e = '\\' then parseStringBody rest ('\\' :: acc)
    else if e = '/' then parseStringBody rest ('/' :: acc)
    else if e = 'b' then parseStringBody rest (Char.ofNat 8 :: acc)
    else if e = 'f' then parseStringBody rest (Char.ofNat 12 :: acc)
    else if e = 'n' then parseStringBody rest ('\n' :: acc)
    else if e = 'r' then parseStringBody rest ('\r' :: acc)
    else if e = 't' then parseStringBody rest ('\t' :: acc)
    else .error "bad escape"
  | c :: rest, acc =>
    if c.toNat < 32 then .error "control character in string"
    else parseStringBody rest (c :: acc)

/-- The three mutually recursive productions (value, array elements,
object members), tied by recursion on fuel so that evaluation stays
kernel-reducible. -/
structure ParserPack where
  pVal : List Char → Except String (JVal × List Char)
  pElems : List Char → List JVal → Except String (JVal × List Char)
  pMembers : List Char → List (String × JVal) → Except String (JVal × List Char)

def parsers : Nat → ParserPack
  | 0 =>
    ⟨fun _ => .error "out of fuel",
     fun _ _ => .error "out of fuel",
     fun _ _ => .error "out of fuel"⟩
  | fuel + 1 =>
    let P := parsers fuel
    { pVal := fun cs =>
        match skipWs cs with
        | 'n' :: 'u' :: 'l' :: 'l' :: rest => .ok (.jnull, rest)
        | 't' :: 'r' :: 'u' :: 'e' :: rest => .ok (.jbool true, rest)
        | 'f' :: 'a' :: 'l' :: 's' :: 'e' :: rest => .ok (.jbool false, rest)
        | '"' :: rest =>
          (match parseStringBody rest [] with
           | .ok (s, r) => .ok (.jstr s, r)
           | .error e => .error e)
        | '[' :: rest =>
          (match skipWs rest with
           | ']' :: r2 => .ok (.jarr [], r2)
           | _ => P.pElems rest [])
        | '{' :: rest =>
          (match skipWs rest with
           | '}' :: r2 => .ok (.jobj [], r2)
           | _ => P.pMembers rest [])
        | c :: rest =>
          if c = '-' ∨ c.isDigit then parseNum (c :: rest)
          else .error "unexpected token"
        | [] => .error "unexpected end of input"
      pElems := fun cs acc =>
        match P.pVal cs with
        | .error e => .error e
        | .ok (v, r) =>
          match skipWs r with
          | ',' :: r2 => P.pElems r2 (acc ++ [v])
          | ']' :: r2 => .ok (.jarr (acc ++ [v]), r2)
          | _ => .error "expected comma or closing bracket"
      pMembers := fun cs acc =>
        match skipWs cs with
        | '"' :: rest =>
          (match parseStringBody rest [] with
           | .error e => .error e
           | .ok (k, r) =>
             match skipWs r with
             | ':' :: r2 =>
               (match P.pVal r2 with
                | .error e => .error e
                | .ok (v, r3) =>
                  match skipWs r3 with
                  | ',' :: r4 => P.pMembers r4 (acc ++ [(k, v)])
                  | '}' :: r4 => .ok (.jobj (acc ++ [(k, v)]), r4)
                  | _ => .error "expected comma or closing brace")
             | _ => .error "expected colon")
        | _ => .error "expected string key" }

def jsonParseL (cs : List Char) : Except String JVal :=
  match (parsers (4 * cs.length + 8)).pVal cs with
  | .error e => .error e
  | .ok (v, rest) =>
    match skipWs rest with
    | [] => .ok v
    | _ => .error "unexpected trailing characters"

def jsonParse (s : String) : Except String JVal := jsonParseL s.data

def exceptOk {ε α : Type} : Except ε α → Bool
  | .ok _ => true
  | .error _ => false

/-! ## Generation-response parsing (`callClaude`, ai-driver.js lines 484-495)

`content.match(/\[[\s\S]*\]/)` performs a leftmost-greedy match: the match
(when it exists) runs from the first `[` of the text to the last `]`,
provided that `]` comes after that `[`.  The matched slice is then handed
to JSON.parse; a parse failure is rethrown. -/

def idxFirst (c : Char) : List Char → Option Nat
  | [] => none
  | x :: rest => if x = c then some 0 else (idxFirst c rest).map (· + 1)

def idxLast (c : Char) (cs : List Char) : Option Nat :=
  (idxFirst c cs.reverse).map (fun k => cs.length - 1 - k)

def jsMatchArray (s : String) : Option String :=
  match idxFirst '[' s.data, idxLast ']' s.data with
  | some i, some j => if i < j then some ⟨(s.data.drop i).take (j - i + 1)⟩ else none
  | _, _ => none

def callClaudeParse (content : String) : Except String JVal :=
  match jsMatchArray content with
  | none => .error "No JSON array found in response"
  | some m => jsonParse m

/-- Modelled from the spec (§6): scan the response text left to right and
return the parse of the first syntactically valid top-level JSON array
embedded in it.  This is a second definition following the spec's words,
kept only to compare the spec's contract against the source's
greedy-regex behavior. -/
def firstArrayAt (cs : List Char) : Option JVal :=
  (List.range (cs.length + 1)).findSome? (fun n =>
    match jsonParseL (cs.take n) with
    | .ok (.jarr vs) => some (.jarr vs)
    | _ => none)

def specFirstValidArray : List Char → Option JVal
  | [] => none
  | c :: rest =>
    match firstArrayAt (c :: rest) with
    | some v => some v
    | none => specFirstValidArray rest

/-! ## Repository tree and context extractor (ai-driver.js lines 44-285)

The working tree is a list of named entries (files with contents, or
directories with entries).  `fs.existsSync`/`fs.statSync` are modelled by
`statPath`, `fs.readFileSync` succeeds only on files (reading a directory
throws, which every caller in the extractor catches). -/

inductive Entry where
  | file (name : String) (content : String)
  | dir (name : String) (entries : List Entry)

def entryName : Entry → String
  | .file n _ => n
  | .dir n _ => n

inductive PathStat where
  | fileC (content : String)
  | dirE
deriving DecidableEq

def statSegs : List String → List Entry → Option PathStat
  | [], _ => some .dirE
  | [seg], es =>
    (match es.find? (fun e => entryName e == seg) with
     | some (.file _ c) => some (.fileC c)
     | some (.dir _ _) => some .dirE
     | none => none)
  | seg :: rest, es =>
    (match es.find? (fun e => entryName e == seg) with
     | some (.dir _ sub) => statSegs rest sub
     | _ => none)

def statPath (tree : List Entry) (p : String) : Option PathStat :=
  statSegs (splitPath p) tree

def truncMark : String := "\n... [truncated]"

/-- safeReadFile (ai-driver.js lines 109-126): missing files give "", a
file larger than maxBytes gives the byte-capped prefix plus the truncation
marker, and any read error (such as the path being a directory) is caught
and gives "". -/
def safeReadFile (tree : List Entry) (p : String) (maxBytes : Nat) : String :=
  match statPath tree p with
  | some (.fileC c) =>
    if maxBytes < c.data.length then ⟨c.data.take maxBytes ++ truncMark.data⟩
    else c
  | some .dirE => ""
  | none => ""

def startsWithL : List Char → List Char → Bool
  | [], _ => true
  | _ :: _, [] => false
  | n :: ns, h :: hs => n == h && startsWithL ns hs

def ignoredName (n : String) : Bool :=
  startsWithL ['.'] n.data || n == "node_modules" || n == "dist" || n == "build"
    || n == "__pycache__"

def allowedExts : List String :=
  [".js", ".ts", ".jsx", ".tsx", ".py", ".rb", ".go", ".rs", ".java",
   ".svelte", ".vue", ".css", ".html", ".json", ".md"]

/-- path.extname: the suffix of the basename from its last dot, empty when
there is no dot or the only dot starts the name. -/
def extName (name : String) : String :=
  match idxFirst '.' name.data.reverse with
  | none => ""
  | some k =>
    let pos := name.data.length - 1 - k
    if pos = 0 then "" else ⟨name.data.drop pos⟩

def maxScanFiles : Nat := 50

/-- scanDir (ai-driver.js lines 50-98) handling one directory entry:
ignored names are pruned, a file is collected (as the segment path
relative to the root) when fewer than maxScanFiles are already collected
and its extension is allow-listed, and a directory is entered only when
its depth does not exceed 3.  The fuel argument only ties the recursion:
descent consumes one unit and the depth guard bounds real descent at four
levels, so any fuel ≥ 5 behaves identically. -/
def scanEntryGo : Nat → Nat → List String → Entry → List (List String) → List (List String)
  | 0, _, _, _, acc => acc
  | dfuel + 1, depth, pre, e, acc =>
    match e with
    | .file n _ =>
      if ignoredName n then acc
      else if decide (acc.length < maxScanFiles) && allowedExts.contains (extName n) then
        acc ++ [pre ++ [n]]
      else acc
    | .dir n sub =>
      if ignoredName n then acc
      else if 3 < depth + 1 then acc
      else sub.foldl (fun a e2 => scanEntryGo dfuel (depth + 1) (pre ++ [n]) e2 a) acc

def scanRepository (tree : List Entry) : List (List String) :=
  tree.foldl (fun a e => scanEntryGo 5 0 [] e a) []

theorem applyOp_files (root : List String) (fs : FSState) (m : FileOp) (q : List String) :
    (applyOp root fs m).files q = (opEffectF root m q).getD (fs.files q) := by
  unfold applyOp opEffectF
  by_cases h1 : m.action = "delete"
  · simp only [h1, if_true]
    by_cases h2 : (fs.files (joinPath root m.path)).isSome
    · simp only [h2, if_true]
      by_cases h3 : q = joinPath root m.path <;> simp [h3]
    · simp only [h2, if_false, Bool.false_eq_true]
      by_cases h3 : q = joinPath root m.path
      · subst h3
        cases hf : fs.files (joinPath root m.path) with
        | none => simp [hf]
        | some v => rw [hf] at h2; simp at h2
      · simp [h3]
  · by_cases h2 : m.action = "create" ∨ m.action = "modify"
    · simp only [h1, if_false, h2, if_true]
      by_cases h3 : q = joinPath root m.path <;> simp [h3]
    · simp [h1, h2]

theorem applyOp_dirs (root : List String) (fs : FSState) (m : FileOp) (q : List String) :
    (applyOp root fs m).dirs q = (fs.dirs q || opEffectD root m q) := by
  unfold applyOp opEffectD
  by_cases h1 : m.action = "delete"
  · have hc : ¬ m.action = "create" := by simp [h1]
    have hm : ¬ m.action = "modify" := by simp [h1]
    simp only [h1, if_true, hc, hm, decide_eq_true_eq]
    by_cases h2 : (fs.files (joinPath root m.path)).isSome <;> simp [h2]
  · by_cases h2 : m.action = "create" ∨ m.action = "modify"
    · have hd : (decide (m.action = "create") || decide (m.action = "modify")) = true := by
        rcases h2 with h | h <;> simp [h]
      simp [h1, h2, hd]
    · have hc : ¬ m.action = "create" := fun h => h2 (Or.inl h)
      have hm : ¬ m.action = "modify" := fun h => h2 (Or.inr h)
      simp [h1, h2, hc, hm]

theorem applyChanges_files (root : List String) (ms : List FileOp) :
    ∀ (fs : FSState) (q : List String),
      (applyChanges root ms fs).files q = (chainF root ms q).getD (fs.files q) := by
  induction ms with
  | nil => intro fs q; rfl
  | cons m rest ih =>
    intro fs q
    show (applyChanges root rest (applyOp root fs m)).files q
      = (chainF root (m :: rest) q).getD (fs.files q)
    rw [ih, applyOp_files]
    cases h : chainF root rest q with
    | none => simp [chainF, h]
    | some v => simp [chainF, h]

theorem applyChanges_dirs (root : List String) (ms : List FileOp) :
    ∀ (fs : FSState) (q : List String),
      (applyChanges root ms fs).dirs q = (fs.dirs q || chainD root ms q) := by
  induction ms with
  | nil => intro fs q; simp [applyChanges, chainD]
  | cons m rest ih =>
    intro fs q
    show (applyChanges root rest (applyOp root fs m)).dirs q
      = (fs.dirs q || chainD root (m :: rest) q)
    rw [ih, applyOp_dirs]
    show _ = (fs.dirs q || (opEffectD root m q || chainD root rest q))
    cases fs.dirs q <;> cases opEffectD root m q <;> cases chainD root rest q <;> rfl

theorem fsstate_eq (a b : FSState) (h1 : ∀ q, a.files q = b.files q)
    (h2 : ∀ q, a.dirs q = b.dirs q) : a = b := by
  cases a with
  | mk fa da =>
    cases b with
    | mk fb db =>
      have hf : fa = fb := funext h1
      have hd : da = db := funext h2
      rw [hf, hd]

theorem applyOp_unknown (root : List String) (fs : FSState) (m : FileOp)
    (h1 : m.action ≠ "delete") (h2 : m.action ≠ "create") (h3 : m.action ≠ "modify") :
    applyOp root fs m = fs := by
  unfold applyOp
  have h4 : ¬ (m.action = "create" ∨ m.action = "modify") := by
    intro h; rcases h with h | h; exact h2 h; exact h3 h
  simp [h1, h4]

/-! ## Webhook notifier (`webhook-driver.js`)

`buildPayload` constructs the status object (optional fields only when
provided; `JSON.stringify` omits fields holding `undefined`),
`generateSignature` computes the lowercase-hex HMAC-SHA256 of the
serialized payload with the shared secret, and the POST request carries
that hex digest in the `x-webhook-signature` header with the serialized
payload as its body.  SHA-256 and HMAC are embedded concretely over byte
lists (`Nat` values < 256), with 32-bit words as `Nat` reduced mod 2^32. -/

def w32 (x : Nat) : Nat := x % 4294967296

def rotr32 (n x : Nat) : Nat := w32 ((x >>> n) ||| (x <<< (32 - n)))

/-- The 64 SHA-256 round constants (FIPS 180-4), written in decimal. -/
def shaK : List Nat :=
  [1116352408, 1899447441, 3049323471, 3921009573, 961987163,
   1508970993, 2453635748, 2870763221, 3624381080, 310598401,
   607225278, 1426881987, 1925078388, 2162078206, 2614888103,
   3248222580, 3835390401, 4022224774, 264347078, 604807628,
   770255983, 1249150122, 1555081692, 1996064986, 2554220882,
   2821834349, 2952996808, 3210313671, 3336571891, 3584528711,
   113926993, 338241895, 666307205, 773529912, 1294757372,
   1396182291, 1695183700, 1986661051, 2177026350, 2456956037,
   2730485921, 2820302411, 3259730800, 3345764771, 3516065817,
   3600352804, 4094571909, 275423344, 430227734, 506948616,
   659060556, 883997877, 958139571, 1322822218, 1537002063,
   1747873779, 1955562222, 2024104815, 2227730452, 2361852424,
   2428436474, 2756734187, 3204031479, 3329325298]

structure Sha8 where
  a : Nat
  b : Nat
  c : Nat
  d : Nat
  e : Nat
  f : Nat
  g : Nat
  h : Nat

/-- The initial SHA-256 hash state (FIPS 180-4), written in decimal. -/
def shaInit : Sha8 :=
  ⟨1779033703, 3144134277, 1013904242, 2773480762,
   1359893119, 2600822924, 528734635, 1541459225⟩

def smallSigma0 (x : Nat) : Nat := rotr32 7 x ^^^ rotr32 18 x ^^^ (x >>> 3)

def smallSigma1 (x : Nat) : Nat := rotr32 17 x ^^^ rotr32 19 x ^^^ (x >>> 10)

def bigSigma0 (x : Nat) : Nat := rotr32 2 x ^^^ rotr32 13 x ^^^ rotr32 22 x

def bigSigma1 (x : Nat) : Nat := rotr32 6 x ^^^ rotr32 11 x ^^^ rotr32 25 x

/-- Extend the 16 block words to the 64-entry message schedule. -/
def shaSchedule (blockWords : List Nat) : List Nat :=
  (List.range 48).foldl
    (fun w i =>
      w ++ [w32 (smallSigma1 (w.getD (i + 14) 0) + w.getD (i + 9) 0
        + smallSigma0 (w.getD (i + 1) 0) + w.getD i 0)])
    blockWords

def shaRound (st : Sha8) (kw : Nat) : Sha8 :=
  let ch := (st.e &&& st.f) ^^^ ((st.e ^^^ 0xffffffff) &&& st.g)
  let t1 := w32 (st.h + bigSigma1 st.e + ch + kw)
  let maj := (st.a &&& st.b) ^^^ (st.a &&& st.c) ^^^ (st.b &&& st.c)
  let t2 := w32 (bigSigma0 st.a + maj)
  ⟨w32 (t1 + t2), st.a, st.b, st.c, w32 (st.d + t1), st.e, st.f, st.g⟩

def bytesToWords : List Nat → List Nat
  | b0 :: b1 :: b2 :: b3 :: rest =>
    (b0 * 16777216 + b1 * 65536 + b2 * 256 + b3) :: bytesToWords rest
  | _ => []

def shaCompress (st : Sha8) (blockBytes : List Nat) : Sha8 :=
  let w := shaSchedule (bytesToWords blockBytes)
  let kws := List.zipWith (fun k x => w32 (k + x)) shaK w
  let fin := kws.foldl shaRound st
  ⟨w32 (st.a + fin.a), w32 (st.b + fin.b), w32 (st.c + fin.c), w32 (st.d + fin.d),
   w32 (st.e + fin.e), w32 (st.f + fin.f), w32 (st.g + fin.g), w32 (st.h + fin.h)⟩

def chunks64 (fuel : Nat) (l : List Nat) : List (List Nat) :=
  match fuel, l with
  | 0, _ => []
  | _, [] => []
  | fu + 1, x :: rest => ((x :: rest).take 64) :: chunks64 fu ((x :: rest).drop 64)

def beBytes (count : Nat) (x : Nat) : List Nat :=
  match count with
  | 0 => []
  | n + 1 => beBytes n (x / 256) ++ [x % 256]

def shaPad (msg : List Nat) : List Nat :=
  let len := msg.length
  let zeroCount := (64 - ((len + 9) % 64)) % 64
  msg ++ [0x80] ++ List.replicate zeroCount 0 ++ beBytes 8 (len * 8)

def wordBytes (x : Nat) : List Nat :=
  [x / 16777216 % 256, x / 65536 % 256, x / 256 % 256, x % 256]

def sha256 (msg : List Nat) : List Nat :=
  let padded := shaPad msg
  let fin := (chunks64 (padded.length + 1) padded).foldl shaCompress shaInit
  wordBytes fin.a ++ wordBytes fin.b ++ wordBytes fin.c ++ wordBytes fin.d
    ++ wordBytes fin.e ++ wordBytes fin.f ++ wordBytes fin.g ++ wordBytes fin.h

def hexDigit (n : Nat) : Char :=
  "0123456789abcdef".data.getD n '0'

def hexOfBytes (bs : List Nat) : String :=
  ⟨(bs.map (fun b => [hexDigit (b / 16), hexDigit (b % 16)])).flatten⟩

/-- HMAC-SHA256 over byte lists (RFC 2104 with a 64-byte block size). -/
def hmacSha256 (key msg : List Nat) : List Nat :=
  let k0 := if 64 < key.length then sha256 key else key
  let kp := k0 ++ List.replicate (64 - k0.length) 0
  let ipadKey := kp.map (fun b => b ^^^ 0x36)
  let opadKey := kp.map (fun b => b ^^^ 0x5c)
  sha256 (opadKey ++ sha256 (ipadKey ++ msg))

def utf8Char (c : Char) : List Nat :=
  let n := c.toNat
  if n < 0x80 then [n]
  else if n < 0x800 then [0xc0 ||| (n >>> 6), 0x80 ||| (n &&& 0x3f)]
  else if n < 0x10000 then
    [0xe0 ||| (n >>> 12), 0x80 ||| ((n >>> 6) &&& 0x3f), 0x80 ||| (n &&& 0x3f)]
  else
    [0xf0 ||| (n >>> 18), 0x80 ||| ((n >>> 12) &&& 0x3f),
     0x80 ||| ((n >>> 6) &&& 0x3f), 0x80 ||| (n &&& 0x3f)]

def utf8Encode (s : String) : List Nat :=
  (s.data.map utf8Char).flatten

/-- JSON string escaping as performed by JSON.stringify on string values. -/
def jsonEscapeChar (c : Char) : List Char :=
  if c = '"' then ['\\', '"']
  else if c = '\\' then ['\\', '\\']
  else if c = '\n' then ['\\', 'n']
  else if c = '\r' then ['\\', 'r']
  else if c = '\t' then ['\\', 't']
  else if c.toNat = 8 then ['\\', 'b']
  else if c.toNat = 12 then ['\\', 'f']
  else if c.toNat < 32 then
    ['\\', 'u', '0', '0', hexDigit (c.toNat / 16), hexDigit (c.toNat % 16)]
  else [c]

def jsonQuote (s : String) : String :=
  ⟨'"' :: (s.data.map jsonEscapeChar).flatten ++ ['"']⟩

/-- The payload object built by buildPayload (webhook-driver.js lines
43-62).  `github_run_id` comes from the environment and may be absent
(JSON.stringify then omits the key); `pr_url` and `pr_number` are added
only when the corresponding CLI arguments were provided. -/
structure WebhookPayload where
  job_id : String
  status : String
  message : String
  timestamp : String
  github_run_id : Option String
  github_run_url : String
  pr_url : Option String
  pr_number : Option Int

/-- JSON.stringify of the payload: insertion-ordered keys, optional fields
omitted when absent. -/
def stringifyPayload (p : WebhookPayload) : String :=
  jsonQuote "job_id" ++ ":" ++ jsonQuote p.job_id
    ++ "," ++ jsonQuote "status" ++ ":" ++ jsonQuote p.status
    ++ "," ++ jsonQuote "message" ++ ":" ++ jsonQuote p.message
    ++ "," ++ jsonQuote "timestamp" ++ ":" ++ jsonQuote p.timestamp
    ++ (match p.github_run_id with
        | some v => "," ++ jsonQuote "github_run_id" ++ ":" ++ jsonQuote v
        | none => "")
    ++ "," ++ jsonQuote "github_run_url" ++ ":" ++ jsonQuote p.github_run_url
    ++ (match p.pr_url with
        | some v => "," ++ jsonQuote "pr_url" ++ ":" ++ jsonQuote v
        | none => "")
    ++ (match p.pr_number with
        | some v => "," ++ jsonQuote "pr_number" ++ ":" ++ toString v
        | none => "")
    |> (fun fields => "\x7b" ++ fields ++ "\x7d")

/-- generateSignature (webhook-driver.js lines 67-72): HMAC-SHA256 of
JSON.stringify(payload) keyed with the webhook secret, hex-encoded. -/
def generateSignature (secret : String) (p : WebhookPayload) : String :=
  hexOfBytes (hmacSha256 (utf8Encode secret) (utf8Encode (stringifyPayload p)))

structure HttpRequest where
  urlArg : String
  method : String
  headers : List (String × String)
  body : String

/-- The fetch request issued by sendWebhook (webhook-driver.js lines
90-98): the signature header is generateSignature(payload) and the body is
JSON.stringify(payload) — serialized independently a second time. -/
def webhookRequest (secret : String) (url : String) (p : WebhookPayload) : HttpRequest :=
  { urlArg := url
    method := "POST"
    headers :=
      [("Content-Type", "application/json"),
       ("x-webhook-signature", generateSignature secret p),
       ("User-Agent", "Retools-Pegasus-Engine")]
    body := stringifyPayload p }

/-- The transport outcome of the fetch call, as seen by sendWebhook. -/
inductive FetchOutcome where
  | success (status : Nat) (bodyText : String)
  | failure (msg : String)

/-- `response.ok` holds exactly for statuses 200-299. -/
def respOk (status : Nat) : Bool := decide (200 ≤ status) && decide (status ≤ 299)

structure NotifyResult where
  exitCode : Nat
  delivered : Bool

/-- Control flow of sendWebhook (webhook-driver.js lines 77-111): a
transport failure or a non-2xx response throws inside the try, is caught,
logged, and the process exits 0; a 2xx response logs success and the
script then terminates normally with exit status 0. -/
def sendWebhook (outcome : FetchOutcome) : NotifyResult :=
  match outcome with
  | .failure _ => { exitCode := 0, delivered := false }
  | .success st _ =>
    if respOk st then { exitCode := 0, delivered := true }
    else { exitCode := 0, delivered := false }

end Retools

/-- C2: for every payload and secret, the value placed in the
x-webhook-signature header equals the lowercase-hex HMAC-SHA256, keyed
with the secret, of exactly the bytes transmitted as the POST body: both
the signed string and the body are JSON.stringify of the same payload
object, which is deterministic, so the signed bytes and the transmitted
bytes coincide. -/
theorem signature_matches_transmitted_body (secret url : String)
    (p : Retools.WebhookPayload) :
    (Retools.webhookRequest secret url p).headers.lookup "x-webhook-signature"
      = some (Retools.hexOfBytes (Retools.hmacSha256 (Retools.utf8Encode secret)
          (Retools.utf8Encode (Retools.webhookRequest secret url p).body))) := by
  rfl

/-- C9: webhook delivery is best-effort — whatever the transport outcome
(network error or any HTTP status, 2xx or not), sendWebhook terminates
the notifier with exit status 0, so a broken webhook endpoint never fails
the invoking pipeline. -/
theorem sendWebhook_never_fails_pipeline (outcome : Retools.FetchOutcome) :
    (Retools.sendWebhook outcome).exitCode = 0 := by
  cases outcome with
  | failure msg => rfl
  | success st body =>
    unfold Retools.sendWebhook
    by_cases h : Retools.respOk st <;> simp [h]

namespace Retools

/-- The error-free effect model is idempotent: the final content of every
path is decided by the last operation touching it, and directories only
accumulate. -/
theorem applyChanges_model_idem (root : List String) (ms : List FileOp)
    (fs : FSState) :
    applyChanges root ms (applyChanges root ms fs) = applyChanges root ms fs := by
  apply fsstate_eq
  · intro q
    rw [applyChanges_files, applyChanges_files]
    cases chainF root ms q <;> simp
  · intro q
    rw [applyChanges_dirs, applyChanges_dirs]
    cases fs.dirs q <;> cases chainD root ms q <;> rfl

theorem contains_properPrefixes (q p : List String) :
    (properPrefixes p).contains q = strictAncestor q p := by
  rw [Bool.eq_iff_iff]
  constructor
  · intro h
    have hmem : q ∈ properPrefixes p := List.elem_iff.mp h
    unfold properPrefixes at hmem
    rcases List.mem_map.mp hmem with ⟨k, hk, hq⟩
    have hklt : k < p.length := List.mem_range.mp hk
    unfold strictAncestor
    rw [Bool.and_eq_true]
    constructor
    · exact List.isPrefixOf_iff_prefix.mpr (hq ▸ List.take_prefix k p)
    · rw [decide_eq_true_eq, ← hq, List.length_take]
      omega
  · intro h
    unfold strictAncestor at h
    rw [Bool.and_eq_true, decide_eq_true_eq] at h
    rcases h with ⟨hp, hl⟩
    have hq : q = p.take q.length :=
      List.prefix_iff_eq_take.mp (List.isPrefixOf_iff_prefix.mp hp)
    refine List.elem_iff.mpr ?_
    unfold properPrefixes
    exact List.mem_map.mpr ⟨q.length, List.mem_range.mpr hl, hq.symm⟩

theorem applyOpE_ok (root : List String) (fs g : FSState) (m : FileOp)
    (h : applyOpE root fs m = .ok g) : g = applyOp root fs m := by
  unfold applyOpE at h
  unfold applyOp
  by_cases h1 : m.action = "delete"
  · rw [if_pos h1] at h
    rw [if_pos h1]
    by_cases h2 : existsFS fs (joinPath root m.path) = true
    · rw [if_pos h2] at h
      by_cases h3 : (fs.files (joinPath root m.path)).isSome = true
      · rw [if_pos h3] at h
        rw [if_pos h3]
        exact (Except.ok.inj h).symm
      · rw [if_neg h3] at h
        exact Except.noConfusion h
    · rw [if_neg h2] at h
      have h2f : existsFS fs (joinPath root m.path) = false := by
        cases hb : existsFS fs (joinPath root m.path)
        · rfl
        · exact absurd hb h2
      have h3 : (fs.files (joinPath root m.path)).isSome = false := by
        unfold existsFS at h2f
        cases hf : (fs.files (joinPath root m.path)).isSome
        · rfl
        · rw [hf] at h2f; simp at h2f
      rw [if_neg (by simp [h3])]
      exact (Except.ok.inj h).symm
  · rw [if_neg h1] at h
    rw [if_neg h1]
    by_cases h2 : m.action = "create" ∨ m.action = "modify"
    · rw [if_pos h2] at h
      rw [if_pos h2]
      by_cases h3 : (properPrefixes (joinPath root m.path)).any
          (fun q => (fs.files q).isSome) = true
      · rw [if_pos h3] at h
        exact Except.noConfusion h
      · rw [if_neg h3] at h
        by_cases h4 : fs.dirs (joinPath root m.path) = true
        · rw [if_pos h4] at h
          exact Except.noConfusion h
        · rw [if_neg h4] at h
          rw [(Except.ok.inj h).symm]
          apply fsstate_eq
          · intro q; rfl
          · intro q
            show (fs.dirs q || (properPrefixes (joinPath root m.path)).contains q)
              = (fs.dirs q || strictAncestor q (joinPath root m.path))
            rw [contains_properPrefixes]
    · rw [if_neg h2] at h
      rw [if_neg h2]
      exact (Except.ok.inj h).symm

theorem applyChangesE_ok (root : List String) :
    ∀ (ms : List FileOp) (fs g : FSState),
      applyChangesE root ms fs = .ok g → g = applyChanges root ms fs := by
  intro ms
  induction ms with
  | nil =>
    intro fs g h
    exact (Except.ok.inj h).symm
  | cons m rest ih =>
    intro fs g h
    unfold applyChangesE at h
    cases ho : applyOpE root fs m with
    | error e =>
      rw [ho] at h
      exact Except.noConfusion h
    | ok fs2 =>
      rw [ho] at h
      have hg := ih fs2 g h
      rw [hg, applyOpE_ok root fs fs2 m ho]
      rfl

end Retools

/-- C6 counterexample: applying a ChangeSet twice is not always the same
as applying it once, because a second application can abort.  With the
batch [create x "1", delete a, create a/b "c", modify x "2"] from an empty
tree, the first application succeeds and leaves x = "2"; in the second
application "a" now exists as a directory, fs.existsSync("a") is true, and
fs.unlinkSync("a") throws EISDIR, aborting the batch with x already reset
to "1" — a different final filesystem state. -/
theorem applyChanges_twice_differs :
    Retools.exceptOk (Retools.applyChangesE ["r"] Retools.c6Batch Retools.emptyFS)
        = true
      ∧ (Retools.applyResultState
            (Retools.applyChangesE ["r"] Retools.c6Batch Retools.emptyFS)).files
          ["r", "x"] = some "2"
      ∧ Retools.exceptOk (Retools.applyChangesE ["r"] Retools.c6Batch
          (Retools.applyResultState
            (Retools.applyChangesE ["r"] Retools.c6Batch Retools.emptyFS))) = false
      ∧ (Retools.applyResultState (Retools.applyChangesE ["r"] Retools.c6Batch
          (Retools.applyResultState
            (Retools.applyChangesE ["r"] Retools.c6Batch Retools.emptyFS)))).files
          ["r", "x"] = some "1" :=
  ⟨rfl, rfl, rfl, rfl⟩

/-- C6 (amended): applyChanges is idempotent whenever both applications
succeed — create/modify overwrite any existing file with the full
replacement content and delete of a nonexistent path is a silent no-op, so
a successful second application reproduces the first's final state; but a
second application may instead abort with an error (for example EISDIR
when a delete now targets a directory created by the first run) and leave
a different state on disk. -/
theorem applyChanges_idempotent_on_success (root : List String)
    (ms : List Retools.FileOp) (fs fs1 fs2 : Retools.FSState)
    (h1 : Retools.applyChangesE root ms fs = .ok fs1)
    (h2 : Retools.applyChangesE root ms fs1 = .ok fs2) :
    fs2 = fs1 := by
  have e1 := Retools.applyChangesE_ok root ms fs fs1 h1
  have e2 := Retools.applyChangesE_ok root ms fs1 fs2 h2
  rw [e2, e1, Retools.applyChanges_model_idem]

/-- C6 witness: a batch that succeeds twice (a create into a fresh
directory and a delete of a nonexistent file) leaves the same state after
the second application as after the first. -/
theorem applyChanges_idempotent_on_success_witness :
    Retools.applyResultState
        (Retools.applyChangesE ["r"] Retools.c6DemoBatch
          (Retools.applyResultState
            (Retools.applyChangesE ["r"] Retools.c6DemoBatch Retools.emptyFS)))
      = Retools.applyResultState
          (Retools.applyChangesE ["r"] Retools.c6DemoBatch Retools.emptyFS) :=
  applyChanges_idempotent_on_success ["r"] Retools.c6DemoBatch Retools.emptyFS _ _
    rfl rfl

/-- C10: an operation whose action is none of create/modify/delete falls
through the if/else-if chain of applyChanges with no filesystem effect and
no error; the surrounding operations of the batch are still applied. -/
theorem applyChanges_skips_unknown_actions (root : List String)
    (ms1 ms2 : List Retools.FileOp) (m : Retools.FileOp) (fs : Retools.FSState)
    (h1 : m.action ≠ "delete") (h2 : m.action ≠ "create") (h3 : m.action ≠ "modify") :
    Retools.applyChanges root (ms1 ++ m :: ms2) fs
      = Retools.applyChanges root (ms1 ++ ms2) fs := by
  unfold Retools.applyChanges
  rw [List.foldl_append, List.foldl_append, List.foldl_cons,
    Retools.applyOp_unknown root _ m h1 h2 h3]

/-- C10 witness: an op with action "rename" in a singleton batch leaves the
filesystem exactly as the empty batch does. -/
theorem applyChanges_skips_unknown_witness :
    Retools.applyChanges ["repo"] ([] ++ ⟨"a.txt", "rename", "x"⟩ :: []) Retools.emptyFS
      = Retools.applyChanges ["repo"] ([] ++ []) Retools.emptyFS :=
  applyChanges_skips_unknown_actions ["repo"] [] [] ⟨"a.txt", "rename", "x"⟩
    Retools.emptyFS (by decide) (by decide) (by decide)

/-- C1: the literal source resolves each operation path with
path.join(workingDir, mod.path) and performs the write unconditionally, so
a path containing "../" escapes the working root: with workingRoot /repo,
the operation (path "../evil.txt", create) writes /evil.txt, a location
that is not inside the working tree.  This contradicts the path-safety
contract the spec states for FileOperation. -/
theorem applyChanges_escape_outside_root :
    (Retools.applyChanges ["repo"] [⟨"../evil.txt", "create", "pwn"⟩]
        Retools.emptyFS).files ["evil.txt"] = some "pwn"
      ∧ List.isPrefixOf ["repo"] ["evil.txt"] = false := by
  constructor
  · rfl
  · rfl


namespace Retools

theorem idxFirst_cons (c x : Char) (rest : List Char) :
    idxFirst c (x :: rest) = if x = c then some 0 else (idxFirst c rest).map (· + 1) :=
  rfl

theorem idxFirst_cons_self (c : Char) (rest : List Char) :
    idxFirst c (c :: rest) = some 0 := by
  rw [idxFirst_cons, if_pos rfl]

theorem idxFirst_append (c : Char) (l1 l2 : List Char) (h : c ∉ l1) :
    idxFirst c (l1 ++ l2) = (idxFirst c l2).map (· + l1.length) := by
  induction l1 with
  | nil =>
    show idxFirst c l2 = (idxFirst c l2).map (· + 0)
    cases idxFirst c l2 <;> simp
  | cons x l1 ih =>
    have hx : ¬ x = c := by
      intro hxc; exact h (by simp [hxc])
    have h1 : c ∉ l1 := fun hm => h (List.mem_cons_of_mem x hm)
    show idxFirst c (x :: (l1 ++ l2)) = (idxFirst c l2).map (· + (x :: l1).length)
    rw [idxFirst_cons, if_neg hx, ih h1]
    cases idxFirst c l2 <;> simp [Nat.add_assoc]

end Retools

/-- C4 counterexample: the source's regex match is greedy, not
first-valid-array.  On the response text "x [1] y [2]" the slice from the
first bracket to the last bracket is "[1] y [2]", which is not valid JSON,
so callClaude raises — while the first syntactically valid top-level array
in the text is [1], which the spec requires the call to return. -/
theorem callClaude_misses_first_valid_array :
    Retools.exceptOk (Retools.callClaudeParse "x [1] y [2]") = false
      ∧ Retools.specFirstValidArray ("x [1] y [2]").data
          = some (.jarr [.jnum "1"]) := by
  exact ⟨rfl, rfl⟩

/-- C4 (amended): callClaude extracts the slice of the response running
from the first occurrence of an opening bracket to the last occurrence of
a closing bracket (the greedy regex match) and returns JSON.parse of that
slice; a response with no such slice, or whose slice does not parse,
raises, making the job a hard failure. -/
theorem callClaude_parses_greedy_bracket_slice (pre mid post : List Char)
    (h1 : '[' ∉ pre) (h2 : ']' ∉ post) (h3 : mid.head? = some '[')
    (h4 : mid.getLast? = some ']') (h5 : 2 ≤ mid.length) :
    Retools.callClaudeParse ⟨pre ++ mid ++ post⟩ = Retools.jsonParseL mid := by
  obtain ⟨mt, rfl⟩ : ∃ t, mid = '[' :: t := by
    cases mid with
    | nil => simp at h3
    | cons a t =>
      refine ⟨t, ?_⟩
      simp only [List.head?_cons, Option.some.injEq] at h3
      rw [h3]
  obtain ⟨rt, hrev⟩ : ∃ t, (('[' :: mt).reverse) = ']' :: t := by
    have hh : (('[' :: mt).reverse).head? = some ']' := by
      rw [List.head?_reverse]; exact h4
    cases hc : ('[' :: mt).reverse with
    | nil => rw [hc] at hh; simp at hh
    | cons a t =>
      refine ⟨t, ?_⟩
      rw [hc] at hh
      simp only [List.head?_cons, Option.some.injEq] at hh
      rw [hh]
  have hfirst : Retools.idxFirst '[' (pre ++ ('[' :: mt) ++ post) = some pre.length := by
    have e1 : pre ++ ('[' :: mt) ++ post = pre ++ ('[' :: (mt ++ post)) := by
      rw [List.append_assoc, List.cons_append]
    rw [e1, Retools.idxFirst_append '[' pre ('[' :: (mt ++ post)) h1,
      Retools.idxFirst_cons_self]
    simp
  have hlastrev :
      Retools.idxFirst ']' ((pre ++ ('[' :: mt) ++ post).reverse) = some post.length := by
    have e2 : (pre ++ ('[' :: mt) ++ post).reverse
        = post.reverse ++ (']' :: (rt ++ pre.reverse)) := by
      rw [List.reverse_append, List.reverse_append, hrev, List.cons_append]
    have h2r : ']' ∉ post.reverse := by
      simpa using h2
    rw [e2, Retools.idxFirst_append ']' post.reverse (']' :: (rt ++ pre.reverse)) h2r,
      Retools.idxFirst_cons_self]
    simp
  have l1 : (pre ++ ('[' :: mt) ++ post).length
      = (pre ++ ('[' :: mt)).length + post.length := List.length_append _ _
  have l2 : (pre ++ ('[' :: mt)).length = pre.length + ('[' :: mt).length :=
    List.length_append _ _
  have l3 : ('[' :: mt).length = mt.length + 1 := List.length_cons _ _
  have hmlen1 : 1 ≤ mt.length := by
    have h5' := h5
    rw [l3] at h5'
    omega
  have hlast : Retools.idxLast ']' (pre ++ ('[' :: mt) ++ post)
      = some (pre.length + mt.length) := by
    unfold Retools.idxLast
    rw [hlastrev]
    show some ((pre ++ ('[' :: mt) ++ post).length - 1 - post.length)
      = some (pre.length + mt.length)
    congr 1
    omega
  have hdrop : ((pre ++ ('[' :: mt) ++ post).drop pre.length).take
      (pre.length + mt.length - pre.length + 1) = '[' :: mt := by
    have e3 : pre ++ ('[' :: mt) ++ post = pre ++ (('[' :: mt) ++ post) :=
      List.append_assoc _ _ _
    rw [e3, List.drop_left]
    have e4 : pre.length + mt.length - pre.length + 1 = ('[' :: mt).length := by
      rw [l3]
      omega
    rw [e4, List.take_left]
  have hmatch : Retools.jsMatchArray ⟨pre ++ ('[' :: mt) ++ post⟩ = some ⟨'[' :: mt⟩ := by
    unfold Retools.jsMatchArray
    show (match Retools.idxFirst '[' (pre ++ ('[' :: mt) ++ post),
            Retools.idxLast ']' (pre ++ ('[' :: mt) ++ post) with
      | some i, some j =>
        if i < j then
          some (⟨((pre ++ ('[' :: mt) ++ post).drop i).take (j - i + 1)⟩ : String)
        else none
      | _, _ => none) = some ⟨'[' :: mt⟩
    rw [hfirst, hlast]
    show (if pre.length < pre.length + mt.length then
        some (⟨((pre ++ ('[' :: mt) ++ post).drop pre.length).take
          (pre.length + mt.length - pre.length + 1)⟩ : String)
      else none) = some ⟨'[' :: mt⟩
    rw [if_pos (by omega), hdrop]
  unfold Retools.callClaudeParse
  rw [hmatch]
  rfl

/-- C4 witness: on "x [1] y" (no bracket noise outside the array) the
greedy slice is exactly "[1]" and callClaude returns its parse. -/
theorem callClaude_greedy_slice_witness :
    Retools.callClaudeParse ⟨['x', ' '] ++ ['[', '1', ']'] ++ [' ', 'y']⟩
      = Retools.jsonParseL ['[', '1', ']'] :=
  callClaude_parses_greedy_bracket_slice ['x', ' '] ['[', '1', ']'] [' ', 'y']
    (by decide) (by decide) rfl rfl (by decide)

namespace Retools

theorem foldl_scan_bound (f : List (List String) → Entry → List (List String))
    (hstep : ∀ e acc, (∀ p, p ∈ acc → p.length ≤ 4) →
      ∀ p, p ∈ f acc e → p.length ≤ 4) :
    ∀ (es : List Entry) (acc : List (List String)),
      (∀ p, p ∈ acc → p.length ≤ 4) → ∀ p, p ∈ es.foldl f acc → p.length ≤ 4 := by
  intro es
  induction es with
  | nil => intro acc hacc p hp; exact hacc p hp
  | cons e rest ih =>
    intro acc hacc p hp
    exact ih (f acc e) (fun q hq => hstep e acc hacc q hq) p hp

theorem scanEntryGo_bound (dfuel : Nat) :
    ∀ (depth : Nat) (pre : List String) (e : Entry) (acc : List (List String)),
      pre.length = depth → depth ≤ 3 → (∀ p, p ∈ acc → p.length ≤ 4) →
      ∀ p, p ∈ scanEntryGo dfuel depth pre e acc → p.length ≤ 4 := by
  induction dfuel with
  | zero =>
    intro depth pre e acc hpre hd hacc p hp
    exact hacc p hp
  | succ dfuel ih =>
    intro depth pre e acc hpre hd hacc p hp
    cases e with
    | file n c =>
      have hred : scanEntryGo (dfuel + 1) depth pre (.file n c) acc
          = (if ignoredName n then acc
             else if decide (acc.length < maxScanFiles)
                 && allowedExts.contains (extName n) then acc ++ [pre ++ [n]]
             else acc) := rfl
      rw [hred] at hp
      by_cases hig : ignoredName n
      · rw [if_pos hig] at hp; exact hacc p hp
      · rw [if_neg hig] at hp
        by_cases hpush : (decide (acc.length < maxScanFiles)
            && allowedExts.contains (extName n)) = true
        · rw [if_pos hpush] at hp
          rcases List.mem_append.mp hp with h | h
          · exact hacc p h
          · have : p = pre ++ [n] := List.mem_singleton.mp h
            subst this
            rw [List.length_append, hpre]
            simp
            omega
        · rw [if_neg hpush] at hp; exact hacc p hp
    | dir n sub =>
      have hred : scanEntryGo (dfuel + 1) depth pre (.dir n sub) acc
          = (if ignoredName n then acc
             else if 3 < depth + 1 then acc
             else sub.foldl
               (fun a e2 => scanEntryGo dfuel (depth + 1) (pre ++ [n]) e2 a) acc) := rfl
      rw [hred] at hp
      by_cases hig : ignoredName n
      · rw [if_pos hig] at hp; exact hacc p hp
      · rw [if_neg hig] at hp
        by_cases hdeep : 3 < depth + 1
        · rw [if_pos hdeep] at hp; exact hacc p hp
        · rw [if_neg hdeep] at hp
          refine foldl_scan_bound _ ?_ sub acc hacc p hp
          intro e2 acc2 hacc2 q hq
          refine ih (depth + 1) (pre ++ [n]) e2 acc2 ?_ ?_ hacc2 q hq
          · rw [List.length_append, hpre]; simp
          · omega

end Retools

/-- C7: the repository scan never collects a file from a directory deeper
than the configured hard depth limit (3): every collected path has at most
four segments, so a file whose directory lies more than three levels below
the root never appears in the list. -/
theorem scanRepository_depth_bounded (tree : List Retools.Entry) (p : List String)
    (hp : p ∈ Retools.scanRepository tree) : p.length ≤ 4 :=
  Retools.foldl_scan_bound _
    (fun e acc hacc q hq =>
      Retools.scanEntryGo_bound 5 0 [] e acc rfl (by omega) hacc q hq)
    tree [] (fun q hq => absurd hq (List.not_mem_nil q)) p hp

/-- C7 witness: a file two levels down is collected and its path has two
segments, within the bound. -/
theorem scanRepository_depth_witness : (["src", "app.js"] : List String).length ≤ 4 :=
  scanRepository_depth_bounded
    [Retools.Entry.dir "src" [Retools.Entry.file "app.js" ""]]
    ["src", "app.js"] (by decide)

namespace Retools

end Retools

/-- C8 counterexample: safeReadFile appends the fixed truncation marker to
the byte-capped prefix, so a file whose content is exactly its own
cap-prefix followed by the marker reads back as the complete file content
even though its size exceeds the cap — contradicting "never the full file
content". -/
theorem safeReadFile_can_return_full_content :
    Retools.safeReadFile
        [Retools.Entry.file "big.txt" ("ab" ++ Retools.truncMark)] "big.txt" 2
      = "ab" ++ Retools.truncMark
      ∧ 2 < ("ab" ++ Retools.truncMark).data.length := by
  constructor
  · rfl
  · decide

/-- C8 (amended): for every file whose size exceeds the byte cap,
safeReadFile returns the cap-length prefix followed by the fixed
truncation marker — total length cap plus the marker length — and this
differs from the full file content whenever the file's length is not
exactly cap plus the marker length (the full content reappears only in the
degenerate case of a file ending in the marker itself); nonexistent paths
yield the empty string without raising. -/
theorem safeReadFile_truncates_amended (tree : List Retools.Entry) (p : String)
    (cap : Nat) (c : String) (h1 : Retools.statPath tree p = some (.fileC c))
    (h2 : cap < c.data.length) :
    Retools.safeReadFile tree p cap = ⟨c.data.take cap ++ Retools.truncMark.data⟩
      ∧ (Retools.safeReadFile tree p cap).data.length
          = cap + Retools.truncMark.data.length
      ∧ (c.data.length ≠ cap + Retools.truncMark.data.length →
          Retools.safeReadFile tree p cap ≠ c)
      ∧ (∀ p2, Retools.statPath tree p2 = none →
          Retools.safeReadFile tree p2 cap = "") := by
  have he : Retools.safeReadFile tree p cap
      = ⟨c.data.take cap ++ Retools.truncMark.data⟩ := by
    unfold Retools.safeReadFile
    rw [h1]
    show (if cap < c.data.length then
        (⟨c.data.take cap ++ Retools.truncMark.data⟩ : String)
      else c) = ⟨c.data.take cap ++ Retools.truncMark.data⟩
    rw [if_pos h2]
  have hlen : (Retools.safeReadFile tree p cap).data.length
      = cap + Retools.truncMark.data.length := by
    rw [he]
    show (c.data.take cap ++ Retools.truncMark.data).length = _
    rw [List.length_append, List.length_take]
    omega
  refine ⟨he, hlen, ?_, ?_⟩
  · intro hne heq
    rw [heq] at hlen
    exact hne hlen
  · intro p2 hp2
    unfold Retools.safeReadFile
    rw [hp2]

/-- C8 witness: an 11-byte file read with cap 5 comes back as the 5-byte
prefix plus the marker, and differs from the full content. -/
theorem safeReadFile_truncates_witness :
    Retools.safeReadFile [Retools.Entry.file "a.txt" "hello world"] "a.txt" 5
        = ⟨("hello world").data.take 5 ++ Retools.truncMark.data⟩
      ∧ Retools.safeReadFile [Retools.Entry.file "a.txt" "hello world"] "a.txt" 5
          ≠ "hello world" := by
  have h := safeReadFile_truncates_amended
    [Retools.Entry.file "a.txt" "hello world"] "a.txt" 5 "hello world" rfl (by decide)
  exact ⟨h.1, h.2.2.1 (by decide)⟩
